import Mathlib

/-!
Verification development for the inf252 visualization repository.

The embedding follows the TypeScript source of the assignment routes
(deceptive-viz and exploratory-vis).  JavaScript numbers are modelled as
exact rationals, and as reals where the source takes a square root
(Math.sqrt).  Rows (`Record<string, string>`) are modelled as association
lists from column name to raw string value.  The JavaScript `Number(...)`
string coercion is modelled for decimal literals (optional sign, integer
and fractional digits, optional exponent, surrounding whitespace, the
empty string coercing to 0), which covers every form occurring in the
dataset; `NaN` is modelled as `none`.
-/

/-- Whitespace characters recognised by the modelled JS trim and Number. -/
def jsIsSpace (c : Char) : Bool :=
  c == ' ' || c == '\t' || c == '\n' || c == '\r' || c == '\x0b' || c == '\x0c'

/-- Trim leading and trailing whitespace from a character list. -/
def trimChars (l : List Char) : List Char :=
  ((l.dropWhile jsIsSpace).reverse.dropWhile jsIsSpace).reverse

/-- Split a character list at every occurrence of a separator, JS `split`. -/
def splitChar (sep : Char) : List Char → List (List Char)
  | [] => [[]]
  | c :: rest =>
    match splitChar sep rest with
    | [] => [[c]]
    | h :: t => if c == sep then [] :: h :: t else (c :: h) :: t

/-- Numeric value of a list of decimal digit characters. -/
def digitsVal (l : List Char) : ℕ :=
  l.foldl (fun a c => 10 * a + (c.toNat - 48)) 0

/-- Parse an exponent suffix (optional sign, then digits); returns the
exponent and the unconsumed remainder. -/
def expTail (r : List Char) : Option ℤ × List Char :=
  let sr : ℤ × List Char :=
    match r with
    | '+' :: q => (1, q)
    | '-' :: q => (-1, q)
    | q => (1, q)
  let ed := sr.2.span Char.isDigit
  (if ed.1 = [] then none else some (sr.1 * (digitsVal ed.1 : ℤ)), ed.2)

/-- Model of the JS `Number(string)` coercion on decimal literals; `none`
models `NaN`. -/
def jsNumberChars (l : List Char) : Option ℚ :=
  let t := trimChars l
  if t = [] then some 0 else
  let nr : Bool × List Char :=
    match t with
    | '+' :: r => (false, r)
    | '-' :: r => (true, r)
    | r => (false, r)
  let ip := nr.2.span Char.isDigit
  let fr : List Char × List Char :=
    match ip.2 with
    | '.' :: rest => rest.span Char.isDigit
    | _ => ([], ip.2)
  if ip.1 = [] ∧ fr.1 = [] then none else
  let er : Option ℤ × List Char :=
    match fr.2 with
    | 'e' :: rest => expTail rest
    | 'E' :: rest => expTail rest
    | _ => (some 0, fr.2)
  match er.1 with
  | none => none
  | some e =>
    if er.2 = [] then
      let mant : ℚ := (digitsVal ip.1 : ℚ) + (digitsVal fr.1 : ℚ) / 10 ^ fr.1.length
      let v : ℚ := mant * (10 : ℚ) ^ e
      some (if nr.1 then -v else v)
    else none

/-- JS `Number(s)` on a string. -/
def jsNumber (s : String) : Option ℚ := jsNumberChars s.data

/-- JS `s.replace(/,/g, '')`: remove every comma. -/
def stripCommas (s : String) : String :=
  String.mk (s.data.filter (fun c => c != ','))

/-- Case-insensitive check that a character list starts with "min". -/
def matchesMin : List Char → Bool
  | a :: b :: c :: _ => a.toLower == 'm' && b.toLower == 'i' && c.toLower == 'n'
  | _ => false

/-- Embeds `parseRuntime` (deceptive-viz.tsx): a leading integer on the
trimmed input followed by optional whitespace and a case-insensitive
"min" token; `none` for empty or non-matching input. -/
def parseRuntime (s : String) : Option ℚ :=
  if s = "" then none else
  let t := trimChars s.data
  let dp := t.span Char.isDigit
  if dp.1 = [] then none else
  if matchesMin (dp.2.dropWhile jsIsSpace) then some (digitsVal dp.1) else none

/-- Embeds `parseGross` (deceptive-viz.tsx): `null` for the empty string,
otherwise `Number` of the comma-stripped, trimmed text with `NaN`
mapped to `null`. -/
def parseGross (s : String) : Option ℚ :=
  if s = "" then none else jsNumberChars (trimChars (stripCommas s).data)

/-- A dataset row: mapping from column name to raw string value. -/
abbrev Row := List (String × String)

/-- JS property read `row[col]` (undefined modelled as `none`). -/
def getField (r : Row) (k : String) : Option String :=
  r.lookup k

/-- Embeds `getNumericValue` (deceptive-viz.tsx). -/
def getNumericValue (r : Row) (col : String) : Option ℚ :=
  match getField r col with
  | none => none
  | some v =>
    if v = "" then none
    else if col = "Runtime" then parseRuntime v
    else if col = "Gross" then parseGross v
    else if col = "No_of_Votes" then
      match jsNumber (stripCommas v) with
      | none => none
      | some q => if q = 0 then none else some q
    else jsNumber v

/-- Embeds `covariance` (deceptive-viz.tsx): sample covariance over the
first `min |x| |y|` index-matched pairs, with the means taken as the
source takes them (sum of the whole array divided by `n`); 0 for fewer
than 2 pairs. -/
def covariance (x y : List ℚ) : ℚ :=
  let n := min x.length y.length
  if n < 2 then 0 else
  let mx := x.sum / (n : ℚ)
  let my := y.sum / (n : ℚ)
  ((x.zip y).map (fun p => (p.1 - mx) * (p.2 - my))).sum / ((n : ℚ) - 1)

/-- Mean of `x` as computed inside pearson and linearRegression: whole-array
sum divided by the number of matched pairs. -/
def pMeanX (x y : List ℚ) : ℚ := x.sum / ((min x.length y.length : ℕ) : ℚ)

/-- Mean of `y` as computed inside pearson and linearRegression. -/
def pMeanY (x y : List ℚ) : ℚ := y.sum / ((min x.length y.length : ℕ) : ℚ)

/-- The accumulated `num` of pearson/linearRegression: sum of
`(x i - meanX) * (y i - meanY)` over matched pairs. -/
def pNum (x y : List ℚ) : ℚ :=
  ((x.zip y).map (fun p => (p.1 - pMeanX x y) * (p.2 - pMeanY x y))).sum

/-- The accumulated `denX` (a.k.a. `den` in linearRegression): sum of
squared x-deviations over matched pairs. -/
def pDenX (x y : List ℚ) : ℚ :=
  ((x.zip y).map (fun p => (p.1 - pMeanX x y) * (p.1 - pMeanX x y))).sum

/-- The accumulated `denY` of pearson: sum of squared y-deviations. -/
def pDenY (x y : List ℚ) : ℚ :=
  ((x.zip y).map (fun p => (p.2 - pMeanY x y) * (p.2 - pMeanY x y))).sum

/-- Embeds `pearsonCorrelation` (deceptive-viz.tsx). -/
noncomputable def pearsonCorrelation (x y : List ℚ) : ℝ :=
  if min x.length y.length < 2 then 0 else
  if Real.sqrt ((pDenX x y : ℝ) * (pDenY x y : ℝ)) < 1 / 10 ^ 10 then 0
  else (pNum x y : ℝ) / Real.sqrt ((pDenX x y : ℝ) * (pDenY x y : ℝ))

/-- Embeds `linearRegression` (deceptive-viz.tsx). -/
def linearRegression (x y : List ℚ) : ℚ × ℚ :=
  if min x.length y.length < 2 then (0, 0) else
  let slope := if pDenX x y < 1 / 10 ^ 10 then 0 else pNum x y / pDenX x y
  (slope, pMeanY x y - slope * pMeanX x y)

/-- Sum of squared residuals of the line `y = s * x + c` over the matched
pairs of the two series. -/
def sse (x y : List ℚ) (s c : ℚ) : ℚ :=
  ((x.zip y).map (fun p => (p.2 - (s * p.1 + c)) * (p.2 - (s * p.1 + c)))).sum

/-- Flags a row whose raw No_of_Votes field coerces (after comma removal)
to the number 0. -/
def isZeroVotesRow (r : Row) : Bool :=
  match getField r "No_of_Votes" with
  | some v => jsNumber (stripCommas v) == some 0
  | none => false

/-- The fixed list of numeric columns of the dataset (deceptive-viz.tsx). -/
def NUMERIC_COLUMNS : List String :=
  ["Released_Year", "Runtime", "IMDB_Rating", "Meta_score", "No_of_Votes", "Gross"]

/-- JS `c.startsWith('is')`. -/
def startsWithIs (c : String) : Bool :=
  match c.data with
  | 'i' :: 's' :: _ => true
  | _ => false

/-- The ordered column list selected by `computeCorrelationMatrix`: the
numeric columns present in the input column list, then the derived
is-prefixed genre-flag columns. -/
def numericCols (allColumns : List String) : List String :=
  NUMERIC_COLUMNS.filter (fun c => allColumns.contains c)
    ++ allColumns.filter startsWithIs

/-- The per-cell value used by the correlation matrix: boolean flags map
to 1/0, everything else goes through `getNumericValue`. -/
def cellValue (r : Row) (col : String) : Option ℚ :=
  if getField r col = some "true" then some 1
  else if getField r col = some "false" then some 0
  else getNumericValue r col

/-- The pairwise-complete observations for two columns: the value pairs of
the rows in which both columns have a value, in row order (the arrays
`a`, `b` accumulated in `computeCorrelationMatrix`). -/
def pairedCells (rows : List Row) (ci cj : String) : List (ℚ × ℚ) :=
  rows.filterMap (fun r =>
    match cellValue r ci, cellValue r cj with
    | some a, some b => some (a, b)
    | _, _ => none)

/-- Entry (i, j) of the pairwise covariance matrix of
`computeCorrelationMatrix`. -/
def covEntry (rows : List Row) (cols : List String) (i j : ℕ) : ℚ :=
  let cl := numericCols cols
  let p := pairedCells rows (cl.getD i "") (cl.getD j "")
  covariance (p.map Prod.fst) (p.map Prod.snd)

/-- The standard deviation the source derives for column i:
`Math.sqrt(Math.max(0, covMatrix[i][i]))`. -/
noncomputable def stdEntry (rows : List Row) (cols : List String) (i : ℕ) : ℝ :=
  Real.sqrt (max 0 ((covEntry rows cols i i : ℚ) : ℝ))

/-- Entry (i, j) of the normalized correlation matrix of
`computeCorrelationMatrix`. -/
noncomputable def corrEntry (rows : List Row) (cols : List String) (i j : ℕ) : ℝ :=
  if stdEntry rows cols i < 1 / 10 ^ 10 ∨ stdEntry rows cols j < 1 / 10 ^ 10 then
    (if i = j then 1 else 0)
  else ((covEntry rows cols i j : ℚ) : ℝ) / (stdEntry rows cols i * stdEntry rows cols j)

/-- Embeds `computeCorrelationMatrix` (deceptive-viz.tsx): the normalized
matrix over the selected numeric and flag columns, plus that column
list. -/
noncomputable def computeCorrelationMatrix (rows : List Row) (allColumns : List String) :
    List (List ℝ) × List String :=
  ((List.range (numericCols allColumns).length).map (fun i =>
      (List.range (numericCols allColumns).length).map (fun j =>
        corrEntry rows allColumns i j)),
    numericCols allColumns)

/-- Entry (i, j) of the matrix returned by `computeCorrelationMatrix`. -/
noncomputable def matEntry (rows : List Row) (cols : List String) (i j : ℕ) : ℝ :=
  (((computeCorrelationMatrix rows cols).1.getD i []).getD j 0)

/-- Failing input for the correlation-range property: two numeric columns
where Meta_score is missing exactly on the rows that pull the
IMDB_Rating standard deviation down. -/
def c2Rows : List Row :=
  [[("IMDB_Rating", "0"), ("Meta_score", "0")],
   [("IMDB_Rating", "10"), ("Meta_score", "10")],
   [("IMDB_Rating", "5"), ("Meta_score", "")],
   [("IMDB_Rating", "5"), ("Meta_score", "")],
   [("IMDB_Rating", "5"), ("Meta_score", "")]]

/-- Column list for the failing input. -/
def c2Cols : List String := ["IMDB_Rating", "Meta_score"]

/-- The cross-view selection state of VisualizationTab
(data-exploration.tsx): an optional selected actor pair and an optional
selected movie id. -/
structure SelState where
  selectedConnection : Option (String × String)
  selectedMovie : Option String
deriving DecidableEq

/-- The idle state: nothing selected. -/
def SelState.idle : SelState := ⟨none, none⟩

/-- Selection events: clicking a chord ribbon, clicking a movie card, or
the Clear selection button. -/
inductive SelEvent where
  | connClick (a b : String)
  | movieClick (id : String)
  | clear
deriving DecidableEq

/-- JS `[a, b].sort().join('|')`: the order-independent key of an actor
pair. -/
def pairKey (a b : String) : String :=
  if a ≤ b then a ++ "|" ++ b else b ++ "|" ++ a

/-- The key the handler computes for the previously selected connection
(the empty string when none is selected). -/
def prevKey (s : Option (String × String)) : String :=
  match s with
  | some p => pairKey p.1 p.2
  | none => ""

/-- One transition of the selection handlers: `onConnectionClick` clears
the movie and toggles the connection by key comparison;
`onMovieClick` clears the connection and toggles the movie; the Clear
selection button resets both. -/
def stepSel (s : SelState) : SelEvent → SelState
  | SelEvent.connClick a b =>
    ⟨if pairKey a b = prevKey s.selectedConnection then none else some (a, b), none⟩
  | SelEvent.movieClick id =>
    ⟨none, match s.selectedMovie with
           | some p => if p = id then none else some id
           | none => some id⟩
  | SelEvent.clear => ⟨none, none⟩

/-- States reachable from the initial (idle) state by selection events. -/
inductive SelReachable : SelState → Prop
  | init : SelReachable SelState.idle
  | step (s : SelState) (e : SelEvent) : SelReachable s → SelReachable (stepSel s e)

/-- Insert an element into a list in front of the first element it is
`le`-below (one step of insertion sort). -/
def insertBy {α : Type} (le : α → α → Bool) (x : α) : List α → List α
  | [] => [x]
  | y :: ys => if le x y then x :: y :: ys else y :: insertBy le x ys

/-- Insertion sort; models the JS stable comparator sort (for the uses in
this file the sort keys are pairwise distinct, so any correct sort
produces the same list as the source's `Array.prototype.sort`). -/
def sortBy {α : Type} (le : α → α → Bool) : List α → List α
  | [] => []
  | x :: xs => insertBy le x (sortBy le xs)

/-- The metric selector of the line-series computation. -/
inductive Metric where
  | imdb
  | meta
deriving DecidableEq

/-- Column read for each metric. -/
def metricKey : Metric → String
  | Metric.imdb => "IMDB_Rating"
  | Metric.meta => "Meta_score"

/-- One point of a line series (year, mean metric value). -/
structure LineSeriesDatum where
  year : ℚ
  value : ℚ
deriving DecidableEq

/-- A line series: group key plus its points. -/
structure LineSeries where
  key : String
  values : List LineSeriesDatum
deriving DecidableEq

/-- JS `Number(row[k])` where the property may be undefined. -/
def jsNumberOfField : Option String → Option ℚ
  | none => none
  | some s => jsNumber s

/-- Append a value to the bucket of key `k`, creating the bucket at the
end on first sight; models `Map.set`/insertion-order iteration. -/
def upsert : List (ℚ × List ℚ) → ℚ → ℚ → List (ℚ × List ℚ)
  | [], k, v => [(k, [v])]
  | p :: rest, k, v =>
    if p.1 = k then (p.1, p.2 ++ [v]) :: rest else p :: upsert rest k v

/-- One loop iteration of `computeLineSeries`: skip rows failing the group
guard or with non-numeric year/metric, otherwise add the value to the
year bucket. -/
def bucketStep (mkey : String) (p : Row → Bool) (m : List (ℚ × List ℚ)) (r : Row) :
    List (ℚ × List ℚ) :=
  if p r then
    match jsNumberOfField (getField r "Released_Year"), jsNumberOfField (getField r mkey) with
    | some y, some v => upsert m y v
    | _, _ => m
  else m

/-- The year buckets accumulated over the rows. -/
def bucketRows (rows : List Row) (mkey : String) (p : Row → Bool) : List (ℚ × List ℚ) :=
  rows.foldl (bucketStep mkey p) []

/-- Sort the buckets by year ascending and average each bucket. -/
def pointsOf (m : List (ℚ × List ℚ)) : List LineSeriesDatum :=
  (sortBy (fun a b => decide (a.1 ≤ b.1)) m).map
    (fun b => ⟨b.1, b.2.sum / (b.2.length : ℚ)⟩)

/-- Embeds `computeLineSeries` (-exploration-charts module): the "All"
series is pushed unconditionally, one series per genre column is pushed
only when it has at least one point. -/
def computeLineSeries (rows : List Row) (genreColumns : List String) (metric : Metric) :
    List LineSeries :=
  let mkey := metricKey metric
  let allPoints := pointsOf (bucketRows rows mkey (fun _ => true))
  let genreSeries := genreColumns.filterMap (fun col =>
    let pts := pointsOf (bucketRows rows mkey (fun r => getField r col == some "true"))
    if 0 < pts.length then some ⟨col, pts⟩ else none)
  ⟨"All", allPoints⟩ :: genreSeries

/-- A JS word character, the class `\w` = [A-Za-z0-9_]. -/
def jsWordChar (c : Char) : Bool :=
  (decide ('A' ≤ c) && decide (c ≤ 'Z')) || (decide ('a' ≤ c) && decide (c ≤ 'z'))
    || (decide ('0' ≤ c) && decide (c ≤ '9')) || c == '_'

/-- JS `replace(/\s+/g, ' ')`: collapse each whitespace run to one
space. -/
def collapseWs : List Char → List Char
  | [] => []
  | c :: rest =>
    if jsIsSpace c then ' ' :: collapseWs (List.dropWhile jsIsSpace rest)
    else c :: collapseWs rest
termination_by l => l.length
decreasing_by
  all_goals simp only [List.length_cons]
  · exact Nat.lt_succ_of_le ((List.dropWhile_sublist jsIsSpace).length_le)
  · omega

/-- Capitalize the first character and lowercase the rest (ASCII, as in
the dataset's genre labels). -/
def capWord : List Char → List Char
  | [] => []
  | c :: rest => Char.toUpper c :: rest.map Char.toLower

/-- Embeds `genreToColumnName` (deceptive-viz.tsx): trim, collapse
whitespace, split on spaces, capitalize each word, join, drop non-word
characters, and prepend "is". -/
def genreToColumnName (g : String) : String :=
  String.mk ('i' :: 's' ::
    (((splitChar ' ' (collapseWs (trimChars g.data))).map capWord).flatten.filter jsWordChar))

/-- JS `text.split(',').map(s => s.trim()).filter(Boolean)`: the trimmed
nonempty genre tokens of a Genre field. -/
def genreTokens (s : String) : List String :=
  (((splitChar ',' s.data).map trimChars).filter (fun t => !t.isEmpty)).map String.mk

/-- The genre tokens of one row. -/
def rowGenreTokens (r : Row) : List String :=
  genreTokens ((getField r "Genre").getD "")

/-- The distinct genres across all rows in first-encounter order (the JS
Set insertion order). -/
def distinctGenres (rows : List Row) : List String :=
  rows.foldl (fun acc r =>
    (rowGenreTokens r).foldl (fun a g => if g ∈ a then a else a ++ [g]) acc) []

/-- JS object update `{...row, [k]: v}` as observed through property
reads: replace the binding when the key exists, else append it. -/
def setField (r : Row) (k v : String) : Row :=
  if r.any (fun p => p.1 == k) then r.map (fun p => if p.1 = k then (k, v) else p)
  else r ++ [(k, v)]

/-- Add every genre-flag column to a row, 'true' exactly when some genre
token of the row maps to that column name. -/
def addGenreFlags (gcols : List String) (r : Row) : Row :=
  gcols.foldl (fun acc key =>
    setField acc key
      (if (rowGenreTokens r).any (fun g => genreToColumnName g == key) then "true"
        else "false")) r

/-- The derived genre-flag column list: distinct genres sorted
alphabetically, one column name each. -/
def genreColumnsOf (rows : List Row) : List String :=
  (sortBy (fun a b : String => decide (a ≤ b)) (distinctGenres rows)).map genreToColumnName

/-- Embeds `preprocessGenres` (deceptive-viz.tsx): expand Genre into
boolean is-prefixed columns, one per distinct genre sorted
alphabetically, appended after the original columns. -/
def preprocessGenres (rows : List Row) (columns : List String) : List Row × List String :=
  (rows.map (addGenreFlags (genreColumnsOf rows)), columns ++ genreColumnsOf rows)

/-- The record identifier: JS `row.Series_Title ?? ''`. -/
def titleOf (r : Row) : String := (getField r "Series_Title").getD ""

/-- The `moviesById` map of VisualizationTab: rows with nonempty titles,
last setter wins, queried by `Map.get`. -/
def moviesByIdGet (rows : List Row) (id : String) : Option Row :=
  ((rows.filter (fun r => !(titleOf r == ""))).reverse).find? (fun r => titleOf r == id)

/-- The numeric year of a row. -/
def rowYear (r : Row) : Option ℚ := jsNumberOfField (getField r "Released_Year")

/-- Modelled from the spec: the record filter of
`computeStarCooccurrenceMatrix` (the -exploration-charts module is not
among the provided sources); spec 4.3 step 1: apply the year-range
predicate to select the active record subset. -/
def starChordFilteredRows (rows : List Row) (yearMin yearMax : ℚ) : List Row :=
  rows.filter (fun r =>
    match rowYear r with
    | some y => decide (yearMin ≤ y) && decide (y ≤ yearMax)
    | none => false)

/-- Drop duplicates keeping first occurrences. -/
def dedupFirst (l : List String) : List String :=
  l.foldl (fun acc s => if s ∈ acc then acc else acc ++ [s]) []

/-- Modelled from the spec: a record's participant list, spec 4.3
step 2: up to 4 named stars, trimmed, empty entries dropped,
deduplicated within the record. -/
def participants (r : Row) : List String :=
  dedupFirst (((["Star1", "Star2", "Star3", "Star4"].filterMap (getField r)).map
    (fun s => String.mk (trimChars s.data))).filter (fun s => !s.isEmpty))

/-- Whether a record contributes to the edge with the given pair key:
it lists two distinct participants whose order-independent key is the
given one (spec 4.3 step 3). -/
def hasPairKey (r : Row) (key : String) : Bool :=
  (participants r).any (fun a =>
    (participants r).any (fun b => !(a == b) && pairKey a b == key))

/-- The contributing record ids of one edge over the filtered rows. -/
def edgeContribIds (frows : List Row) (key : String) : List String :=
  (frows.filter (fun r => hasPairKey r key)).map titleOf

/-- The chord data consumed by the linked views: the contributing-record
ids per surviving edge key, and the filtered record id list. -/
structure ChordData where
  connectionMovies : String → Option (List String)
  allFilteredMovieIds : List String

/-- Modelled from the spec: `computeStarCooccurrenceMatrix`
(-exploration-charts module, not among the provided sources), restricted
to the fields `displayMovies` consumes; spec 4.3: edge weight = number
of contributing records, edges below the minimum weight are dropped
entirely (step 4), and the filtered-record-id list is returned alongside. -/
def computeStarCooccurrenceMatrix (rows : List Row) (yearMin yearMax : ℚ)
    (minConn : ℕ) : ChordData :=
  let frows := starChordFilteredRows rows yearMin yearMax
  { connectionMovies := fun key =>
      let c := edgeContribIds frows key
      if minConn ≤ c.length then some c else none
    allFilteredMovieIds := frows.map titleOf }

/-- Embeds `displayMovies` (data-exploration.tsx, VisualizationTab): the
single selected movie when one is selected, else the contributing
records of the selected connection, else all filtered records. -/
def displayMovies (rows : List Row) (data : ChordData)
    (selectedMovie : Option String) (selectedConnection : Option (String × String)) :
    List Row :=
  match selectedMovie with
  | some id =>
    match moviesByIdGet rows id with
    | some m => [m]
    | none => []
  | none =>
    let ids := match selectedConnection with
      | some p => (data.connectionMovies (pairKey p.1 p.2)).getD []
      | none => data.allFilteredMovieIds
    ids.filterMap (moviesByIdGet rows)

/-- Concrete rows for the displayMovies witness. -/
def c4Rows : List Row :=
  [[("Series_Title", "M1"), ("Released_Year", "2005"), ("Star1", "A"), ("Star2", "B")],
   [("Series_Title", "M2"), ("Released_Year", "1990"), ("Star1", "C")]]

/-! Theorems. -/

theorem sum_map_sub_const (l : List ℚ) (m : ℚ) :
    (l.map (fun a => a - m)).sum = l.sum - l.length * m := by
  induction l with
  | nil => simp
  | cons a t ih =>
    simp only [List.map_cons, List.sum_cons, List.length_cons, ih, Nat.cast_add, Nat.cast_one]
    ring

theorem sse_expand (p : List (ℚ × ℚ)) (mx my s c : ℚ) :
    (p.map (fun q => (q.2 - (s * q.1 + c)) * (q.2 - (s * q.1 + c)))).sum
      = (p.map (fun q => (q.2 - my) * (q.2 - my))).sum
        - 2 * s * (p.map (fun q => (q.1 - mx) * (q.2 - my))).sum
        + s ^ 2 * (p.map (fun q => (q.1 - mx) * (q.1 - mx))).sum
        + 2 * (my - s * mx - c) * (p.map (fun q => q.2 - my)).sum
        - 2 * (my - s * mx - c) * s * (p.map (fun q => q.1 - mx)).sum
        + (p.length : ℚ) * ((my - s * mx - c) * (my - s * mx - c)) := by
  induction p with
  | nil => simp
  | cons q t ih =>
    simp only [List.map_cons, List.sum_cons, List.length_cons, Nat.cast_add, Nat.cast_one, ih]
    ring

theorem sum_fst_dev_eq_zero (x y : List ℚ) (hlen : x.length = y.length)
    (h2 : 2 ≤ x.length) :
    ((x.zip y).map (fun q => q.1 - pMeanX x y)).sum = 0 := by
  have hm : (x.zip y).map (fun q => q.1 - pMeanX x y)
      = (((x.zip y).map Prod.fst).map (fun a => a - pMeanX x y)) := by
    rw [List.map_map]; rfl
  have hfst : (x.zip y).map Prod.fst = x :=
    List.map_fst_zip x y (le_of_eq hlen)
  have hx0 : (x.length : ℚ) ≠ 0 := by
    have : 0 < x.length := lt_of_lt_of_le (by norm_num) h2
    exact_mod_cast Nat.pos_iff_ne_zero.mp this
  rw [hm, hfst, sum_map_sub_const]
  simp only [pMeanX, hlen, min_self]
  rw [← hlen]
  field_simp

theorem sum_snd_dev_eq_zero (x y : List ℚ) (hlen : x.length = y.length)
    (h2 : 2 ≤ x.length) :
    ((x.zip y).map (fun q => q.2 - pMeanY x y)).sum = 0 := by
  have hm : (x.zip y).map (fun q => q.2 - pMeanY x y)
      = (((x.zip y).map Prod.snd).map (fun a => a - pMeanY x y)) := by
    rw [List.map_map]; rfl
  have hsnd : (x.zip y).map Prod.snd = y :=
    List.map_snd_zip x y (le_of_eq hlen.symm)
  have hy0 : (y.length : ℚ) ≠ 0 := by
    have : 0 < y.length := lt_of_lt_of_le (by norm_num) (hlen ▸ h2)
    exact_mod_cast Nat.pos_iff_ne_zero.mp this
  rw [hm, hsnd, sum_map_sub_const]
  simp only [pMeanY, hlen, min_self]
  field_simp

theorem sse_eq (x y : List ℚ) (hlen : x.length = y.length) (h2 : 2 ≤ x.length)
    (s c : ℚ) :
    sse x y s c
      = pDenY x y - 2 * s * pNum x y + s ^ 2 * pDenX x y
        + (x.length : ℚ)
          * ((pMeanY x y - s * pMeanX x y - c) * (pMeanY x y - s * pMeanX x y - c)) := by
  have h := sse_expand (x.zip y) (pMeanX x y) (pMeanY x y) s c
  rw [sum_fst_dev_eq_zero x y hlen h2, sum_snd_dev_eq_zero x y hlen h2] at h
  have hplen : ((x.zip y).length : ℚ) = (x.length : ℚ) := by
    rw [List.length_zip, hlen, min_self]
  rw [sse, h, hplen, pDenY, pNum, pDenX]
  ring

theorem ols_min (Sy B C n s t : ℚ) (hC : 0 < C) (hn : 0 ≤ n) :
    Sy - 2 * (B / C) * B + (B / C) ^ 2 * C + n * (0 * 0)
      ≤ Sy - 2 * s * B + s ^ 2 * C + n * (t * t) := by
  have hq : 0 ≤ (C * s - B) ^ 2 / C := div_nonneg (sq_nonneg _) hC.le
  have hexp : (C * s - B) ^ 2 / C = s ^ 2 * C - 2 * s * B + B ^ 2 / C := by
    field_simp
    ring
  have e1 : Sy - 2 * (B / C) * B + (B / C) ^ 2 * C + n * (0 * 0) = Sy - B ^ 2 / C := by
    field_simp
    ring
  have ht : 0 ≤ n * (t * t) := mul_nonneg hn (mul_self_nonneg t)
  have hq2 : 0 ≤ s ^ 2 * C - 2 * s * B + B ^ 2 / C := hexp ▸ hq
  rw [e1]
  linarith

/-- C5 (amended): `linearRegression` returns slope 0 and intercept 0 for
fewer than 2 matched pairs; for at least 2 pairs whose sum of squared
x-deviations is below the source's 1e-10 guard it returns slope 0 and
intercept equal to the mean of y (not 0); otherwise (equal-length series,
guard passed) it returns the ordinary-least-squares line minimizing the
sum of squared residuals in y. -/
theorem linearRegression_cases (x y : List ℚ) :
    (min x.length y.length < 2 → linearRegression x y = (0, 0))
  ∧ (2 ≤ min x.length y.length → pDenX x y < 1 / 10 ^ 10 →
      linearRegression x y = (0, pMeanY x y))
  ∧ (x.length = y.length → 2 ≤ x.length → 1 / 10 ^ 10 ≤ pDenX x y →
      ∀ s c : ℚ, sse x y (linearRegression x y).1 (linearRegression x y).2 ≤ sse x y s c) := by
  refine ⟨?_, ?_, ?_⟩
  · intro h
    simp [linearRegression, h]
  · intro h2 hd
    have hmin : ¬ min x.length y.length < 2 := not_lt.mpr h2
    simp only [linearRegression, if_neg hmin, if_pos hd]
    norm_num
  · intro hlen h2 hd
    have hC : 0 < pDenX x y := lt_of_lt_of_le (by norm_num) hd
    have hmin : ¬ min x.length y.length < 2 := by
      rw [hlen, min_self]
      omega
    have hden : ¬ pDenX x y < 1 / 10 ^ 10 := not_lt.mpr hd
    have hs : (linearRegression x y).1 = pNum x y / pDenX x y := by
      simp only [linearRegression, if_neg hmin, if_neg hden]
    have hi : (linearRegression x y).2
        = pMeanY x y - pNum x y / pDenX x y * pMeanX x y := by
      simp only [linearRegression, if_neg hmin, if_neg hden]
    intro s c
    rw [sse_eq x y hlen h2, sse_eq x y hlen h2, hs, hi]
    have h0 : pMeanY x y - pNum x y / pDenX x y * pMeanX x y
        - (pMeanY x y - pNum x y / pDenX x y * pMeanX x y) = 0 := by ring
    rw [h0]
    exact ols_min _ _ _ _ _ _ hC (Nat.cast_nonneg _)

/-- C5 counterexample: for the series x = [1, 1], y = [3, 3] there are two
matched pairs and the x series has zero variance, yet `linearRegression`
returns intercept 3 (the mean of y), not the intercept 0 the claim
states. -/
theorem linearRegression_claim_false :
    linearRegression [1, 1] [3, 3] = (0, 3) ∧ pDenX [1, 1] [3, 3] = 0
      ∧ ((0 : ℚ), (3 : ℚ)) ≠ ((0 : ℚ), (0 : ℚ)) := by
  refine ⟨?_, ?_, ?_⟩ <;> with_unfolding_all decide

/-- C5 witness: for x = [0, 1, 2], y = [1, 3, 5] the regression guard
hypotheses hold and the computed line beats the zero line on the sum of
squared residuals. -/
theorem linearRegression_cases_witness :
    sse [0, 1, 2] [1, 3, 5] (linearRegression [0, 1, 2] [1, 3, 5]).1
        (linearRegression [0, 1, 2] [1, 3, 5]).2
      ≤ sse [0, 1, 2] [1, 3, 5] 0 0 :=
  (linearRegression_cases [0, 1, 2] [1, 3, 5]).2.2 rfl (by norm_num)
    (by with_unfolding_all decide) 0 0

/-- C8: `parseGross` strips the digit-group separators (commas), trims,
and then applies the JS numeric coercion; it returns `none` exactly when
the input is empty or the stripped text does not coerce to a number, and
otherwise returns the parsed number. -/
theorem parseGross_spec (s : String) :
    (parseGross s = none ↔ s = "" ∨ jsNumberChars (trimChars (stripCommas s).data) = none)
  ∧ (∀ q : ℚ, s ≠ "" → jsNumberChars (trimChars (stripCommas s).data) = some q →
      parseGross s = some q) := by
  constructor
  · by_cases hs : s = ""
    · simp [parseGross, hs]
    · simp [parseGross, hs]
  · intro q hs hq
    simp [parseGross, hs, hq]

set_option maxRecDepth 40000 in
/-- C8 witness: a comma-grouped number parses to its ungrouped value, and
a non-numeric string yields `none`. -/
theorem parseGross_spec_witness :
    parseGross "1,234" = some 1234 ∧ parseGross "abc" = none :=
  ⟨(parseGross_spec "1,234").2 1234 (by decide) (by with_unfolding_all decide),
    (parseGross_spec "abc").1.mpr (Or.inr (by with_unfolding_all decide))⟩

theorem getD_map_range {α : Type} (f : ℕ → α) (n i : ℕ) (hi : i < n) (d : α) :
    (((List.range n).map f).getD i d) = f i := by
  rw [List.getD_eq_getElem?_getD, List.getElem?_map, List.getElem?_range hi]
  rfl

theorem matEntry_eq_corrEntry (rows : List Row) (cols : List String) (i j : ℕ)
    (hi : i < (numericCols cols).length) (hj : j < (numericCols cols).length) :
    matEntry rows cols i j = corrEntry rows cols i j := by
  show ((((List.range (numericCols cols).length).map (fun i =>
      (List.range (numericCols cols).length).map (fun j =>
        corrEntry rows cols i j))).getD i []).getD j 0) = corrEntry rows cols i j
  rw [getD_map_range _ _ _ hi, getD_map_range _ _ _ hj]

theorem getNumericValue_votes_zero (r : Row) (v : String)
    (hv : getField r "No_of_Votes" = some v)
    (h0 : jsNumber (stripCommas v) = some 0) :
    getNumericValue r "No_of_Votes" = none := by
  by_cases hve : v = ""
  · simp [getNumericValue, hv, hve]
  · simp [getNumericValue, hv, hve, h0]

theorem cellValue_votes_zero (r : Row) (hz : isZeroVotesRow r = true) :
    cellValue r "No_of_Votes" = none := by
  unfold isZeroVotesRow at hz
  cases hgf : getField r "No_of_Votes" with
  | none => rw [hgf] at hz; simp at hz
  | some v =>
    rw [hgf] at hz
    simp only [beq_iff_eq] at hz
    have hv1 : v ≠ "true" := by
      intro h
      subst h
      have ht : jsNumber (stripCommas "true") = none := by with_unfolding_all decide
      rw [ht] at hz
      exact Option.noConfusion hz
    have hv2 : v ≠ "false" := by
      intro h
      subst h
      have ht : jsNumber (stripCommas "false") = none := by with_unfolding_all decide
      rw [ht] at hz
      exact Option.noConfusion hz
    unfold cellValue
    rw [hgf, if_neg (by simpa using hv1), if_neg (by simpa using hv2)]
    exact getNumericValue_votes_zero r v hgf hz

theorem pairedCells_votes_filter (rows : List Row) (c : String) :
    pairedCells rows "No_of_Votes" c
      = pairedCells (rows.filter (fun r => !(isZeroVotesRow r))) "No_of_Votes" c := by
  induction rows with
  | nil => rfl
  | cons r t ih =>
    by_cases hz : isZeroVotesRow r
    · have hc : cellValue r "No_of_Votes" = none := cellValue_votes_zero r hz
      simp only [pairedCells, List.filterMap_cons, List.filter_cons, hz, hc,
        Bool.not_true, Bool.false_eq_true, if_false]
      exact ih
    · simp only [pairedCells, List.filterMap_cons, List.filter_cons,
        Bool.not_eq_true'] at *
      rw [Bool.not_eq_true] at hz
      simp only [hz, Bool.not_false, if_true, List.filterMap_cons]
      cases hcv : cellValue r "No_of_Votes" <;> cases hcc : cellValue r c <;>
        simp [hcv, hcc, ih]

/-- C10: a row whose No_of_Votes field coerces (after comma removal) to
the number 0 gets `none` from `getNumericValue` rather than 0, and such
rows contribute nothing to the pairwise-complete observations the
correlation matrix uses for the No_of_Votes column. -/
theorem votes_zero_excluded :
    (∀ (r : Row) (v : String), getField r "No_of_Votes" = some v →
        jsNumber (stripCommas v) = some 0 → getNumericValue r "No_of_Votes" = none)
  ∧ ∀ (rows : List Row) (c : String),
      pairedCells rows "No_of_Votes" c
        = pairedCells (rows.filter (fun r => !(isZeroVotesRow r))) "No_of_Votes" c :=
  ⟨getNumericValue_votes_zero, pairedCells_votes_filter⟩

set_option maxRecDepth 40000 in
/-- C10 witness: the concrete row with raw vote count "0" is mapped to
`none` even though 0 is a well-formed numeric value. -/
theorem votes_zero_excluded_witness :
    getNumericValue [("No_of_Votes", "0")] "No_of_Votes" = none :=
  votes_zero_excluded.1 [("No_of_Votes", "0")] "0" (by with_unfolding_all decide)
    (by with_unfolding_all decide)

theorem sum_swap_prod (p : List (ℚ × ℚ)) (mx my : ℚ) :
    ((p.map Prod.swap).map (fun q => (q.1 - my) * (q.2 - mx))).sum
      = (p.map (fun q => (q.1 - mx) * (q.2 - my))).sum := by
  induction p with
  | nil => rfl
  | cons q t ih =>
    simp only [List.map_cons, List.sum_cons, ih, Prod.fst_swap, Prod.snd_swap]
    ring

theorem covariance_comm (x y : List ℚ) : covariance x y = covariance y x := by
  simp only [covariance]
  rw [min_comm y.length x.length]
  by_cases h : min x.length y.length < 2
  · simp [h]
  · rw [if_neg h, if_neg h]
    rw [← List.zip_swap x y, sum_swap_prod]

theorem pairedCells_swap (rows : List Row) (ci cj : String) :
    pairedCells rows cj ci = (pairedCells rows ci cj).map Prod.swap := by
  induction rows with
  | nil => rfl
  | cons r t ih =>
    simp only [pairedCells, List.filterMap_cons] at *
    cases h1 : cellValue r ci <;> cases h2 : cellValue r cj <;> simp [h1, h2, ih]

theorem covEntry_symm (rows : List Row) (cols : List String) (i j : ℕ) :
    covEntry rows cols i j = covEntry rows cols j i := by
  simp only [covEntry]
  rw [pairedCells_swap rows ((numericCols cols).getD i "") ((numericCols cols).getD j "")]
  rw [List.map_map, List.map_map]
  exact covariance_comm _ _

theorem zip_self_map (x : List ℚ) : x.zip x = x.map (fun a => (a, a)) := by
  induction x with
  | nil => rfl
  | cons a t ih => simp [List.zip_cons_cons, ih]

theorem covariance_self_nonneg (x : List ℚ) : 0 ≤ covariance x x := by
  simp only [covariance, min_self]
  by_cases h : x.length < 2
  · simp [h]
  · rw [if_neg h]
    apply div_nonneg
    · apply List.sum_nonneg
      intro a ha
      rw [zip_self_map, List.map_map] at ha
      obtain ⟨b, hb, rfl⟩ := List.mem_map.mp ha
      exact mul_self_nonneg _
    · have h2 : 2 ≤ x.length := not_lt.mp h
      have h2q : (2 : ℚ) ≤ (x.length : ℚ) := by exact_mod_cast h2
      linarith

theorem pairedCells_self_eq (rows : List Row) (c : String) :
    (pairedCells rows c c).map Prod.fst = (pairedCells rows c c).map Prod.snd := by
  induction rows with
  | nil => rfl
  | cons r t ih =>
    simp only [pairedCells, List.filterMap_cons] at *
    cases h : cellValue r c <;> simp [h, ih]

theorem covEntry_self_nonneg (rows : List Row) (cols : List String) (i : ℕ) :
    0 ≤ covEntry rows cols i i := by
  simp only [covEntry]
  rw [pairedCells_self_eq]
  exact covariance_self_nonneg _

/-- C1: the matrix returned by `computeCorrelationMatrix` is symmetric,
has 1 at every diagonal position, and a column with zero variance has
entry 1 with itself and 0 with every other column. -/
theorem computeCorrelationMatrix_props (rows : List Row) (cols : List String) (i j : ℕ)
    (hi : i < (numericCols cols).length) (hj : j < (numericCols cols).length) :
    matEntry rows cols i j = matEntry rows cols j i
  ∧ matEntry rows cols i i = 1
  ∧ (covEntry rows cols i i = 0 → i ≠ j → matEntry rows cols i j = 0) := by
  rw [matEntry_eq_corrEntry _ _ _ _ hi hj, matEntry_eq_corrEntry _ _ _ _ hj hi,
    matEntry_eq_corrEntry _ _ _ _ hi hi]
  refine ⟨?_, ?_, ?_⟩
  · unfold corrEntry
    rw [covEntry_symm rows cols i j]
    by_cases h : stdEntry rows cols i < 1 / 10 ^ 10 ∨ stdEntry rows cols j < 1 / 10 ^ 10
    · rw [if_pos h, if_pos h.symm]
      by_cases hij : i = j
      · simp [hij]
      · rw [if_neg hij, if_neg (fun hh => hij hh.symm)]
    · rw [if_neg h, if_neg (fun hh => h hh.symm)]
      rw [mul_comm]
  · unfold corrEntry
    by_cases h : stdEntry rows cols i < 1 / 10 ^ 10 ∨ stdEntry rows cols i < 1 / 10 ^ 10
    · rw [if_pos h]
      simp
    · rw [if_neg h]
      have hcov : 0 ≤ covEntry rows cols i i := covEntry_self_nonneg rows cols i
      have hcovr : (0 : ℝ) ≤ ((covEntry rows cols i i : ℚ) : ℝ) := by exact_mod_cast hcov
      have hstd : stdEntry rows cols i * stdEntry rows cols i
          = ((covEntry rows cols i i : ℚ) : ℝ) := by
        unfold stdEntry
        rw [Real.mul_self_sqrt (le_max_left _ _)]
        exact max_eq_right hcovr
      have hne : ((covEntry rows cols i i : ℚ) : ℝ) ≠ 0 := by
        push_neg at h
        have h2 : 0 < stdEntry rows cols i := lt_of_lt_of_le (by norm_num) h.1
        have h3 := mul_pos h2 h2
        rw [hstd] at h3
        exact ne_of_gt h3
      rw [hstd]
      exact div_self hne
  · intro hcov hij
    have hstd0 : stdEntry rows cols i = 0 := by
      unfold stdEntry
      rw [hcov]
      norm_num
    unfold corrEntry
    rw [if_pos (Or.inl (by rw [hstd0]; norm_num))]
    rw [if_neg hij]

/-- C1 witness: for a two-column instance with both values present the
matrix properties hold at indices 0 and 1. -/
theorem computeCorrelationMatrix_props_witness :
    matEntry [[("IMDB_Rating", "1"), ("Meta_score", "2")],
              [("IMDB_Rating", "3"), ("Meta_score", "5")]]
        ["IMDB_Rating", "Meta_score"] 0 1
      = matEntry [[("IMDB_Rating", "1"), ("Meta_score", "2")],
                  [("IMDB_Rating", "3"), ("Meta_score", "5")]]
          ["IMDB_Rating", "Meta_score"] 1 0
  ∧ matEntry [[("IMDB_Rating", "1"), ("Meta_score", "2")],
              [("IMDB_Rating", "3"), ("Meta_score", "5")]]
        ["IMDB_Rating", "Meta_score"] 0 0 = 1
  ∧ (covEntry [[("IMDB_Rating", "1"), ("Meta_score", "2")],
               [("IMDB_Rating", "3"), ("Meta_score", "5")]]
        ["IMDB_Rating", "Meta_score"] 0 0 = 0 → 0 ≠ 1 →
      matEntry [[("IMDB_Rating", "1"), ("Meta_score", "2")],
                [("IMDB_Rating", "3"), ("Meta_score", "5")]]
          ["IMDB_Rating", "Meta_score"] 0 1 = 0) :=
  computeCorrelationMatrix_props _ _ 0 1 (by with_unfolding_all decide)
    (by with_unfolding_all decide)

set_option maxRecDepth 100000 in
/-- C2: on `c2Rows` the matrix entry for (IMDB_Rating, Meta_score) is 2,
outside [-1, 1]: the pairwise-complete covariance (50) is normalized by
the per-column standard deviations (sqrt 12.5 and sqrt 50) taken over
each column's own complete rows, not over the pairwise-complete rows. -/
theorem corrMatrix_entry_out_of_range :
    matEntry c2Rows c2Cols 0 1 = 2 ∧ ¬ matEntry c2Rows c2Cols 0 1 ≤ 1 := by
  have hent : matEntry c2Rows c2Cols 0 1 = corrEntry c2Rows c2Cols 0 1 :=
    matEntry_eq_corrEntry _ _ _ _ (by with_unfolding_all decide)
      (by with_unfolding_all decide)
  have h00 : covEntry c2Rows c2Cols 0 0 = 25 / 2 := by with_unfolding_all decide
  have h11 : covEntry c2Rows c2Cols 1 1 = 50 := by with_unfolding_all decide
  have h01 : covEntry c2Rows c2Cols 0 1 = 50 := by with_unfolding_all decide
  have hs0 : stdEntry c2Rows c2Cols 0 = Real.sqrt (25 / 2) := by
    unfold stdEntry
    rw [h00]
    push_cast
    rw [max_eq_right (by norm_num)]
  have hs1 : stdEntry c2Rows c2Cols 1 = Real.sqrt 50 := by
    unfold stdEntry
    rw [h11]
    push_cast
    rw [max_eq_right (by norm_num)]
  have hnl0 : ¬ stdEntry c2Rows c2Cols 0 < 1 / 10 ^ 10 := by
    rw [hs0]
    push_neg
    rw [Real.le_sqrt' (by norm_num)]
    norm_num
  have hnl1 : ¬ stdEntry c2Rows c2Cols 1 < 1 / 10 ^ 10 := by
    rw [hs1]
    push_neg
    rw [Real.le_sqrt' (by norm_num)]
    norm_num
  have hprod : stdEntry c2Rows c2Cols 0 * stdEntry c2Rows c2Cols 1 = 25 := by
    rw [hs0, hs1, ← Real.sqrt_mul (by norm_num)]
    rw [show (25 / 2 : ℝ) * 50 = 625 by norm_num]
    rw [show (625 : ℝ) = 25 ^ 2 by norm_num]
    exact Real.sqrt_sq (by norm_num)
  have hval : corrEntry c2Rows c2Cols 0 1 = 2 := by
    unfold corrEntry
    rw [if_neg (fun hh => hh.elim hnl0 hnl1)]
    rw [h01, hprod]
    norm_num
  exact ⟨hent.trans hval, by rw [hent, hval]; norm_num⟩

theorem affine_num_sum (l : List ℚ) (a b mx my : ℚ) (hmy : my = a * mx + b) :
    (l.map (fun t => (t - mx) * ((a * t + b) - my))).sum
      = a * (l.map (fun t => (t - mx) * (t - mx))).sum := by
  subst hmy
  induction l with
  | nil => simp
  | cons x t ih =>
    simp only [List.map_cons, List.sum_cons, ih]
    ring

theorem affine_den_sum (l : List ℚ) (a b mx my : ℚ) (hmy : my = a * mx + b) :
    (l.map (fun t => ((a * t + b) - my) * ((a * t + b) - my))).sum
      = a ^ 2 * (l.map (fun t => (t - mx) * (t - mx))).sum := by
  subst hmy
  induction l with
  | nil => simp
  | cons x t ih =>
    simp only [List.map_cons, List.sum_cons, ih]
    ring

theorem sum_map_affine (l : List ℚ) (a b : ℚ) :
    (l.map (fun t => a * t + b)).sum = a * l.sum + l.length * b := by
  induction l with
  | nil => simp
  | cons x t ih =>
    simp only [List.map_cons, List.sum_cons, List.length_cons, ih, Nat.cast_add, Nat.cast_one]
    ring

theorem sum_sq_nonneg (l : List ℚ) (m : ℚ) :
    0 ≤ (l.map (fun t => (t - m) * (t - m))).sum := by
  apply List.sum_nonneg
  intro q hq
  obtain ⟨p, hp, rfl⟩ := List.mem_map.mp hq
  exact mul_self_nonneg _

/-- C7 (amended): for two series where the second is an affine transform
of the first with positive slope, `pearsonCorrelation` returns exactly 1
provided there are at least 2 points and the product of the two sums of
squared deviations is at least 1e-20 (the square of the source's 1e-10
guard on the denominator); for smaller, possibly still nonzero, variance
the function returns 0 instead. -/
theorem pearson_affine_one (xs : List ℚ) (a b : ℚ) (ha : 0 < a) (h2 : 2 ≤ xs.length)
    (hg : 1 / 10 ^ 20 ≤ pDenX xs (xs.map (fun t => a * t + b))
        * pDenY xs (xs.map (fun t => a * t + b))) :
    pearsonCorrelation xs (xs.map (fun t => a * t + b)) = 1 := by
  set ys := xs.map (fun t => a * t + b) with hys
  have hlen : ys.length = xs.length := List.length_map xs _
  have hmin : min xs.length ys.length = xs.length := by rw [hlen, min_self]
  have hn0 : (xs.length : ℚ) ≠ 0 := by
    have : 0 < xs.length := lt_of_lt_of_le (by norm_num) h2
    exact_mod_cast Nat.pos_iff_ne_zero.mp this
  have hmy : pMeanY xs ys = a * pMeanX xs ys + b := by
    unfold pMeanX pMeanY
    rw [hmin, hys, sum_map_affine]
    field_simp
    ring
  have hzip : xs.zip ys = xs.map (fun t => (t, a * t + b)) := by
    rw [hys]
    exact (List.map_prod_left_eq_zip _).symm
  have hdenx : pDenX xs ys
      = (xs.map (fun t => (t - pMeanX xs ys) * (t - pMeanX xs ys))).sum := by
    unfold pDenX
    rw [hzip, List.map_map]
    rfl
  have hnum : pNum xs ys
      = a * (xs.map (fun t => (t - pMeanX xs ys) * (t - pMeanX xs ys))).sum := by
    unfold pNum
    rw [hzip, List.map_map]
    exact affine_num_sum xs a b _ _ hmy
  have hdeny : pDenY xs ys
      = a ^ 2 * (xs.map (fun t => (t - pMeanX xs ys) * (t - pMeanX xs ys))).sum := by
    unfold pDenY
    rw [hzip, List.map_map]
    exact affine_den_sum xs a b _ _ hmy
  have hS_nonneg : 0 ≤ (xs.map (fun t => (t - pMeanX xs ys) * (t - pMeanX xs ys))).sum :=
    sum_sq_nonneg xs _
  have hSne : (xs.map (fun t => (t - pMeanX xs ys) * (t - pMeanX xs ys))).sum ≠ 0 := by
    intro h0
    rw [hdenx, hdeny, h0] at hg
    norm_num at hg
  have hSpos : 0 < (xs.map (fun t => (t - pMeanX xs ys) * (t - pMeanX xs ys))).sum :=
    lt_of_le_of_ne hS_nonneg (Ne.symm hSne)
  have haS : (0 : ℚ) < a * (xs.map (fun t => (t - pMeanX xs ys) * (t - pMeanX xs ys))).sum :=
    mul_pos ha hSpos
  have hq : 1 / 10 ^ 10
      ≤ a * (xs.map (fun t => (t - pMeanX xs ys) * (t - pMeanX xs ys))).sum := by
    rw [hdenx, hdeny] at hg
    by_contra hlt
    push_neg at hlt
    have hsq := mul_self_lt_mul_self haS.le hlt
    nlinarith
  have key : ((pDenX xs ys : ℚ) : ℝ) * ((pDenY xs ys : ℚ) : ℝ)
      = (((a * (xs.map (fun t => (t - pMeanX xs ys) * (t - pMeanX xs ys))).sum : ℚ) : ℝ)) ^ 2 := by
    rw [hdenx, hdeny]
    push_cast
    ring
  have hne : ((a * (xs.map (fun t => (t - pMeanX xs ys) * (t - pMeanX xs ys))).sum : ℚ) : ℝ) ≠ 0 := by
    exact_mod_cast ne_of_gt haS
  have hcast_le : (1 : ℝ) / 10 ^ 10
      ≤ ((a * (xs.map (fun t => (t - pMeanX xs ys) * (t - pMeanX xs ys))).sum : ℚ) : ℝ) := by
    have h1 : ((1 / 10 ^ 10 : ℚ) : ℝ)
        ≤ ((a * (xs.map (fun t => (t - pMeanX xs ys) * (t - pMeanX xs ys))).sum : ℚ) : ℝ) := by
      exact_mod_cast hq
    have h2c : ((1 / 10 ^ 10 : ℚ) : ℝ) = 1 / 10 ^ 10 := by norm_num
    rw [h2c] at h1
    exact h1
  unfold pearsonCorrelation
  rw [hmin, if_neg (not_lt.mpr h2), key, Real.sqrt_sq (by exact_mod_cast haS.le)]
  rw [if_neg (not_lt.mpr hcast_le), hnum]
  exact div_self hne

/-- C7 counterexample: the series [0, 1e-6] is an affine transform of
itself with slope 1 and has nonzero variance, yet the computed Pearson
correlation is 0 (the denominator falls below the 1e-10 guard), not 1. -/
theorem pearson_affine_claim_false :
    pDenX [0, 1 / 1000000] [0, 1 / 1000000] ≠ 0
  ∧ pearsonCorrelation [0, 1 / 1000000] [0, 1 / 1000000] = 0 := by
  have hpx : pDenX [0, 1 / 1000000] [0, 1 / 1000000] = 1 / 2000000000000 := by
    simp [pDenX, pMeanX]
    norm_num
  have hpy : pDenY [0, 1 / 1000000] [0, 1 / 1000000] = 1 / 2000000000000 := by
    simp [pDenY, pMeanY]
    norm_num
  constructor
  · rw [hpx]
    norm_num
  · unfold pearsonCorrelation
    rw [if_neg (by norm_num)]
    rw [if_pos]
    rw [hpx, hpy]
    push_cast
    rw [show ((1 : ℝ) / 2000000000000) * (1 / 2000000000000) = (1 / 2000000000000) ^ 2
      from by ring]
    calc Real.sqrt ((1 / 2000000000000 : ℝ) ^ 2) = 1 / 2000000000000 :=
          Real.sqrt_sq (by norm_num)
      _ < 1 / 10 ^ 10 := by norm_num

/-- C7 witness: for xs = [0, 1] and the transform t ↦ 2t + 3 the guard
hypotheses hold and the correlation is 1. -/
theorem pearson_affine_one_witness :
    pearsonCorrelation [0, 1] ([0, 1].map (fun t => 2 * t + 3)) = 1 :=
  pearson_affine_one [0, 1] 2 3 (by norm_num) (by norm_num)
    (by simp [pDenX, pDenY, pMeanX, pMeanY]; norm_num)

theorem pairKey_comm (a b : String) : pairKey a b = pairKey b a := by
  unfold pairKey
  rcases le_total a b with h | h
  · rw [if_pos h]
    rcases lt_or_eq_of_le h with hlt | heq
    · rw [if_neg (not_le.mpr hlt)]
    · subst heq
      rw [if_pos le_rfl]
  · rw [if_pos h]
    rcases lt_or_eq_of_le h with hlt | heq
    · rw [if_neg (not_le.mpr hlt)]
    · subst heq
      rw [if_pos le_rfl]

/-- C3: from every reachable selection state, at most one of the two
selections is active; selecting a record clears any selected edge and
vice versa; re-selecting the current edge (in either endpoint order) or
the current record returns the machine to the idle state; and every
further event stays within the reachable states, so the properties hold
along every event sequence. -/
theorem selection_machine_props (s : SelState) (hs : SelReachable s) :
    (s.selectedConnection = none ∨ s.selectedMovie = none)
  ∧ (∀ a b, (stepSel s (SelEvent.connClick a b)).selectedMovie = none)
  ∧ (∀ id, (stepSel s (SelEvent.movieClick id)).selectedConnection = none)
  ∧ (∀ a b, s.selectedConnection = some (a, b) →
      stepSel s (SelEvent.connClick a b) = SelState.idle
        ∧ stepSel s (SelEvent.connClick b a) = SelState.idle)
  ∧ (∀ id, s.selectedMovie = some id → stepSel s (SelEvent.movieClick id) = SelState.idle)
  ∧ (∀ e, SelReachable (stepSel s e)) := by
  refine ⟨?_, ?_, ?_, ?_, ?_, ?_⟩
  · induction hs with
    | init => exact Or.inl rfl
    | step s e _ _ =>
      cases e with
      | connClick a b => exact Or.inr rfl
      | movieClick id => exact Or.inl rfl
      | clear => exact Or.inl rfl
  · intro a b
    rfl
  · intro id
    rfl
  · intro a b hab
    constructor
    · simp [stepSel, hab, prevKey, SelState.idle]
    · simp only [stepSel, hab, prevKey]
      rw [pairKey_comm b a]
      simp [SelState.idle]
  · intro id hid
    simp [stepSel, hid, SelState.idle]
  · intro e
    exact SelReachable.step s e hs

/-- C3 witness: after selecting the edge (A, B) from idle, the state is
reachable, toggling with (B, A) returns to idle, and the properties
hold. -/
theorem selection_machine_props_witness :
    SelReachable (stepSel SelState.idle (SelEvent.connClick "A" "B"))
  ∧ stepSel (stepSel SelState.idle (SelEvent.connClick "A" "B"))
      (SelEvent.connClick "B" "A") = SelState.idle :=
  ⟨SelReachable.step _ _ SelReachable.init,
    ((selection_machine_props _ (SelReachable.step _ _ SelReachable.init)).2.2.2.1
      "A" "B" (by with_unfolding_all decide)).2⟩

theorem insertBy_perm {α : Type} (le : α → α → Bool) (x : α) (l : List α) :
    (insertBy le x l).Perm (x :: l) := by
  induction l with
  | nil => exact List.Perm.refl _
  | cons y ys ih =>
    unfold insertBy
    by_cases h : le x y
    · rw [if_pos h]
    · rw [if_neg h]
      exact (List.Perm.cons y ih).trans (List.Perm.swap x y ys)

theorem sortBy_perm {α : Type} (le : α → α → Bool) (l : List α) :
    (sortBy le l).Perm l := by
  induction l with
  | nil => exact List.Perm.refl _
  | cons x xs ih =>
    exact (insertBy_perm le x (sortBy le xs)).trans (List.Perm.cons x ih)

theorem insertBy_pairwise {α : Type} (le : α → α → Bool)
    (htot : ∀ a b, le a b || le b a)
    (htrans : ∀ a b c, le a b = true → le b c = true → le a c = true)
    (x : α) (l : List α) (hl : l.Pairwise (fun a b => le a b = true)) :
    (insertBy le x l).Pairwise (fun a b => le a b = true) := by
  induction l with
  | nil => simp [insertBy]
  | cons y ys ih =>
    rcases List.pairwise_cons.mp hl with ⟨hy, hys⟩
    unfold insertBy
    by_cases h : le x y
    · rw [if_pos h]
      refine List.pairwise_cons.mpr ⟨?_, hl⟩
      intro z hz
      rcases List.mem_cons.mp hz with rfl | hzys
      · exact h
      · exact htrans x y z h (hy z hzys)
    · rw [if_neg h]
      have hyx : le y x = true := by
        have := htot x y
        rw [Bool.or_eq_true] at this
        rcases this with h1 | h1
        · exact absurd h1 h
        · exact h1
      refine List.pairwise_cons.mpr ⟨?_, ih hys⟩
      intro z hz
      have hz' : z ∈ x :: ys := ((insertBy_perm le x ys).mem_iff).mp hz
      rcases List.mem_cons.mp hz' with rfl | hzys
      · exact hyx
      · exact hy z hzys

theorem sortBy_pairwise {α : Type} (le : α → α → Bool)
    (htot : ∀ a b, le a b || le b a)
    (htrans : ∀ a b c, le a b = true → le b c = true → le a c = true)
    (l : List α) : (sortBy le l).Pairwise (fun a b => le a b = true) := by
  induction l with
  | nil => exact List.Pairwise.nil
  | cons x xs ih => exact insertBy_pairwise le htot htrans x (sortBy le xs) ih

theorem pairwise_lt_of_le_ne (l : List ℚ) (hle : l.Pairwise (· ≤ ·)) (hne : l.Nodup) :
    l.Pairwise (· < ·) := by
  induction l with
  | nil => exact List.Pairwise.nil
  | cons a t ih =>
    rcases List.pairwise_cons.mp hle with ⟨ha, ht⟩
    rcases List.pairwise_cons.mp hne with ⟨hna, hnt⟩
    exact List.pairwise_cons.mpr
      ⟨fun b hb => lt_of_le_of_ne (ha b hb) (hna b hb), ih ht hnt⟩

theorem mem_keys_upsert (m : List (ℚ × List ℚ)) (k v y : ℚ) :
    y ∈ (upsert m k v).map Prod.fst ↔ y ∈ m.map Prod.fst ∨ y = k := by
  induction m with
  | nil => simp [upsert]
  | cons p rest ih =>
    unfold upsert
    by_cases h : p.1 = k
    · rw [if_pos h]
      simp only [List.map_cons, List.mem_cons, h]
      tauto
    · rw [if_neg h]
      simp only [List.map_cons, List.mem_cons, ih]
      tauto

theorem nodup_keys_upsert (m : List (ℚ × List ℚ)) (k v : ℚ)
    (h : (m.map Prod.fst).Nodup) : ((upsert m k v).map Prod.fst).Nodup := by
  induction m with
  | nil => simp [upsert]
  | cons p rest ih =>
    rcases List.pairwise_cons.mp h with ⟨hp, hrest⟩
    unfold upsert
    by_cases hk : p.1 = k
    · rw [if_pos hk]
      exact h
    · rw [if_neg hk]
      simp only [List.map_cons]
      refine List.pairwise_cons.mpr ⟨?_, ih hrest⟩
      intro z hz
      rw [mem_keys_upsert] at hz
      rcases hz with hz | rfl
      · exact hp z hz
      · exact hk

theorem mem_keys_bucket_aux (mkey : String) (p : Row → Bool) (rows : List Row)
    (m0 : List (ℚ × List ℚ)) (y : ℚ) :
    (y ∈ (rows.foldl (bucketStep mkey p) m0).map Prod.fst)
      ↔ y ∈ m0.map Prod.fst
        ∨ ∃ r ∈ rows, p r = true
            ∧ jsNumberOfField (getField r "Released_Year") = some y
            ∧ jsNumberOfField (getField r mkey) ≠ none := by
  induction rows generalizing m0 with
  | nil => simp
  | cons r t ih =>
    rw [List.foldl_cons, ih]
    have hstep : y ∈ (bucketStep mkey p m0 r).map Prod.fst
        ↔ y ∈ m0.map Prod.fst
          ∨ (p r = true ∧ jsNumberOfField (getField r "Released_Year") = some y
              ∧ jsNumberOfField (getField r mkey) ≠ none) := by
      unfold bucketStep
      by_cases hp : p r
      · rw [if_pos hp]
        cases hy : jsNumberOfField (getField r "Released_Year") with
        | none => simp [hp, hy]
        | some y' =>
          cases hv : jsNumberOfField (getField r mkey) with
          | none => simp [hp, hy, hv]
          | some v =>
            rw [mem_keys_upsert]
            simp only [hp, hy, hv, true_and, Option.some.injEq, ne_eq,
              reduceCtorEq, not_false_eq_true, and_true]
            tauto
      · rw [if_neg hp]
        simp [hp]
    rw [hstep, List.exists_mem_cons_iff]
    tauto

theorem nodup_keys_bucket_aux (mkey : String) (p : Row → Bool) (rows : List Row)
    (m0 : List (ℚ × List ℚ)) (h : (m0.map Prod.fst).Nodup) :
    ((rows.foldl (bucketStep mkey p) m0).map Prod.fst).Nodup := by
  induction rows generalizing m0 with
  | nil => exact h
  | cons r t ih =>
    rw [List.foldl_cons]
    apply ih
    unfold bucketStep
    by_cases hp : p r
    · rw [if_pos hp]
      cases hy : jsNumberOfField (getField r "Released_Year") with
      | none => exact h
      | some y' =>
        cases hv : jsNumberOfField (getField r mkey) with
        | none => exact h
        | some v => exact nodup_keys_upsert m0 y' v h
    · rw [if_neg hp]
      exact h

theorem pointsOf_years_eq (m : List (ℚ × List ℚ)) :
    (pointsOf m).map LineSeriesDatum.year
      = (sortBy (fun a b => decide (a.1 ≤ b.1)) m).map Prod.fst := by
  unfold pointsOf
  rw [List.map_map]
  rfl

theorem pointsOf_years_sorted (m : List (ℚ × List ℚ))
    (hnd : (m.map Prod.fst).Nodup) :
    ((pointsOf m).map LineSeriesDatum.year).Pairwise (· < ·) := by
  rw [pointsOf_years_eq]
  have hperm : (sortBy (fun a b : ℚ × List ℚ => decide (a.1 ≤ b.1)) m).Perm m :=
    sortBy_perm _ m
  have hnd2 : ((sortBy (fun a b : ℚ × List ℚ => decide (a.1 ≤ b.1)) m).map Prod.fst).Nodup :=
    (List.Perm.nodup_iff (hperm.map Prod.fst)).mpr hnd
  have hpw : (sortBy (fun a b : ℚ × List ℚ => decide (a.1 ≤ b.1)) m).Pairwise
      (fun a b => decide (a.1 ≤ b.1) = true) := by
    apply sortBy_pairwise
    · intro a b
      rcases le_total a.1 b.1 with h | h <;> simp [h]
    · intro a b c hab hbc
      rw [decide_eq_true_iff] at *
      exact le_trans hab hbc
  have hle : ((sortBy (fun a b : ℚ × List ℚ => decide (a.1 ≤ b.1)) m).map Prod.fst).Pairwise
      (· ≤ ·) := by
    rw [List.pairwise_map]
    exact hpw.imp (fun h => by rwa [decide_eq_true_iff] at h)
  exact pairwise_lt_of_le_ne _ hle hnd2

theorem pointsOf_years_mem (m : List (ℚ × List ℚ)) (y : ℚ) :
    y ∈ (pointsOf m).map LineSeriesDatum.year ↔ y ∈ m.map Prod.fst := by
  rw [pointsOf_years_eq]
  exact ((sortBy_perm _ m).map Prod.fst).mem_iff

/-- C6 (amended): every genre series returned by `computeLineSeries` has
at least one point (an empty genre group is omitted); every returned
series, including "All", has its points strictly sorted by year
ascending; and the "All" series — which is emitted even when it is empty,
contrary to the original claim — has exactly one point per distinct year
with at least one qualifying record. -/
theorem computeLineSeries_props (rows : List Row) (genreColumns : List String)
    (metric : Metric) :
    (∀ s ∈ (computeLineSeries rows genreColumns metric).tail, s.values ≠ [])
  ∧ (∀ s ∈ computeLineSeries rows genreColumns metric,
      (s.values.map LineSeriesDatum.year).Pairwise (· < ·))
  ∧ ∃ pts, (computeLineSeries rows genreColumns metric).head? = some ⟨"All", pts⟩
      ∧ ∀ y, y ∈ pts.map LineSeriesDatum.year
          ↔ ∃ r ∈ rows, jsNumberOfField (getField r "Released_Year") = some y
              ∧ jsNumberOfField (getField r (metricKey metric)) ≠ none := by
  refine ⟨?_, ?_, ?_⟩
  · intro s hs
    simp only [computeLineSeries, List.tail_cons] at hs
    obtain ⟨col, hcol, heq⟩ := List.mem_filterMap.mp hs
    by_cases h : 0 < (pointsOf (bucketRows rows (metricKey metric)
        (fun r => getField r col == some "true"))).length
    · rw [if_pos h] at heq
      cases heq
      rw [List.length_pos] at h
      exact h
    · rw [if_neg h] at heq
      exact absurd heq (by simp)
  · intro s hs
    simp only [computeLineSeries, List.mem_cons] at hs
    rcases hs with rfl | hs
    · exact pointsOf_years_sorted _
        (nodup_keys_bucket_aux _ _ rows [] (by simp))
    · obtain ⟨col, hcol, heq⟩ := List.mem_filterMap.mp hs
      by_cases h : 0 < (pointsOf (bucketRows rows (metricKey metric)
          (fun r => getField r col == some "true"))).length
      · rw [if_pos h] at heq
        cases heq
        exact pointsOf_years_sorted _
          (nodup_keys_bucket_aux _ _ rows [] (by simp))
      · rw [if_neg h] at heq
        exact absurd heq (by simp)
  · refine ⟨pointsOf (bucketRows rows (metricKey metric) (fun _ => true)), rfl, ?_⟩
    intro y
    rw [pointsOf_years_mem]
    unfold bucketRows
    rw [mem_keys_bucket_aux]
    simp

/-- C6 counterexample: on the empty record list the result still contains
the "All" series with zero points, so not every returned series has a
point and the empty "all records" group is not omitted. -/
theorem computeLineSeries_empty_all_series :
    computeLineSeries [] [] Metric.imdb = [⟨"All", []⟩] := by
  rfl

theorem lookup_map_ne (t : Row) (k v k' : String) (hne : k' ≠ k) :
    (t.map (fun p => if p.1 = k then (k, v) else p)).lookup k' = t.lookup k' := by
  induction t with
  | nil => rfl
  | cons p t ih =>
    obtain ⟨pk, pv⟩ := p
    by_cases hpk : pk = k
    · have hb : (k' == k) = false := beq_false_of_ne hne
      have hb2 : (k' == pk) = false := beq_false_of_ne (hpk ▸ hne)
      simp only [List.map_cons, if_pos hpk, List.lookup_cons, hb, hb2]
      exact ih
    · simp only [List.map_cons, if_neg hpk, List.lookup_cons]
      cases hkp : k' == pk
      · exact ih
      · rfl

theorem lookup_map_self (t : Row) (k v : String)
    (hk : t.any (fun p => p.1 == k) = true) :
    (t.map (fun p => if p.1 = k then (k, v) else p)).lookup k = some v := by
  induction t with
  | nil => simp at hk
  | cons p t ih =>
    obtain ⟨pk, pv⟩ := p
    by_cases hpk : pk = k
    · simp only [List.map_cons, if_pos hpk, List.lookup_cons, beq_self_eq_true]
    · have hb : (k == pk) = false := beq_false_of_ne (fun h => hpk h.symm)
      simp only [List.map_cons, if_neg hpk, List.lookup_cons, hb]
      apply ih
      simp only [List.any_cons, Bool.or_eq_true] at hk
      rcases hk with h1 | h1
      · exact absurd (by simpa using h1) hpk
      · exact h1

theorem lookup_none_of_not_any (t : Row) (k : String)
    (h : ¬ t.any (fun p => p.1 == k) = true) :
    t.lookup k = none := by
  rw [List.lookup_eq_none_iff]
  intro p hp
  simp only [List.any_eq_true, not_exists, not_and] at h
  have := h p hp
  simp only [bne_iff_ne, ne_eq]
  intro he
  rw [he] at this
  simp at this

theorem getField_setField (r : Row) (k v k' : String) :
    getField (setField r k v) k' = if k' = k then some v else getField r k' := by
  unfold setField getField
  by_cases ha : r.any (fun p => p.1 == k) = true
  · rw [if_pos ha]
    by_cases hk' : k' = k
    · subst hk'
      rw [if_pos rfl]
      exact lookup_map_self r k' v ha
    · rw [if_neg hk']
      exact lookup_map_ne r k v k' hk'
  · rw [if_neg ha, List.lookup_append]
    by_cases hk' : k' = k
    · subst hk'
      rw [if_pos rfl, lookup_none_of_not_any r k' ha]
      simp
    · rw [if_neg hk']
      have hb : (k' == k) = false := beq_false_of_ne hk'
      simp [List.lookup_cons, hb]

theorem getField_fold_setField (val : String → String) (keys : List String) (acc : Row)
    (k : String) :
    getField (keys.foldl (fun a key => setField a key (val key)) acc) k
      = if k ∈ keys then some (val k) else getField acc k := by
  induction keys generalizing acc with
  | nil => simp
  | cons key t ih =>
    rw [List.foldl_cons, ih]
    by_cases hk : k ∈ t
    · rw [if_pos hk, if_pos (List.mem_cons_of_mem _ hk)]
    · rw [if_neg hk, getField_setField]
      by_cases hkk : k = key
      · subst hkk
        rw [if_pos rfl, if_pos (List.mem_cons_self _ _)]
      · rw [if_neg hkk, if_neg (by simp [List.mem_cons, hkk, hk])]

theorem getField_addGenreFlags (gcols : List String) (r : Row) (k : String) :
    getField (addGenreFlags gcols r) k
      = if k ∈ gcols
          then some (if (rowGenreTokens r).any (fun g => genreToColumnName g == k)
            then "true" else "false")
        else getField r k := by
  unfold addGenreFlags
  exact getField_fold_setField
    (fun key => if (rowGenreTokens r).any (fun g => genreToColumnName g == key)
      then "true" else "false") gcols r k

theorem mem_dedup_append_of_mem_acc (ts : List String) (acc : List String) (a : String)
    (h : a ∈ acc) :
    a ∈ ts.foldl (fun l g => if g ∈ l then l else l ++ [g]) acc := by
  induction ts generalizing acc with
  | nil => exact h
  | cons t ts ih =>
    rw [List.foldl_cons]
    apply ih
    by_cases hg : t ∈ acc
    · rw [if_pos hg]
      exact h
    · rw [if_neg hg]
      exact List.mem_append_left _ h

theorem mem_dedup_append_of_mem (ts : List String) (acc : List String) (a : String)
    (h : a ∈ ts) :
    a ∈ ts.foldl (fun l g => if g ∈ l then l else l ++ [g]) acc := by
  induction ts generalizing acc with
  | nil => simp at h
  | cons t ts ih =>
    rw [List.foldl_cons]
    rcases List.mem_cons.mp h with rfl | hmem
    · apply mem_dedup_append_of_mem_acc
      by_cases hg : a ∈ acc
      · rw [if_pos hg]
        exact hg
      · rw [if_neg hg]
        exact List.mem_append_right _ (List.mem_singleton_self a)
    · exact ih _ hmem

theorem outer_fold_preserve (rows : List Row) (acc : List String) (a : String)
    (h : a ∈ acc) :
    a ∈ rows.foldl (fun acc r =>
      (rowGenreTokens r).foldl (fun l g => if g ∈ l then l else l ++ [g]) acc) acc := by
  induction rows generalizing acc with
  | nil => exact h
  | cons r0 t ih =>
    rw [List.foldl_cons]
    exact ih _ (mem_dedup_append_of_mem_acc _ acc a h)

theorem token_mem_distinct_aux (rows : List Row) (r : Row) (hr : r ∈ rows) (g : String)
    (hg : g ∈ rowGenreTokens r) (acc : List String) :
    g ∈ rows.foldl (fun acc r =>
      (rowGenreTokens r).foldl (fun l g => if g ∈ l then l else l ++ [g]) acc) acc := by
  induction rows generalizing acc with
  | nil => cases hr
  | cons r0 t ih =>
    rw [List.foldl_cons]
    rcases List.mem_cons.mp hr with h0 | hmem
    · subst h0
      exact outer_fold_preserve t _ g (mem_dedup_append_of_mem _ acc g hg)
    · exact ih hmem _

theorem token_mem_distinctGenres (rows : List Row) (r : Row) (hr : r ∈ rows)
    (g : String) (hg : g ∈ rowGenreTokens r) : g ∈ distinctGenres rows :=
  token_mem_distinct_aux rows r hr g hg []

/-- C9: `preprocessGenres` returns the original columns followed by one
flag column per distinct genre in alphabetical order of genre; every
returned row carries a value for every flag column, 'true' exactly when
some trimmed genre token of the row maps to that column name; and, for a
genre whose column name is not shared with another distinct genre, that
is exactly when the row's Genre field contains the genre itself. -/
theorem preprocessGenres_props (rows : List Row) (columns : List String) :
    (preprocessGenres rows columns).2 = columns ++ genreColumnsOf rows
  ∧ genreColumnsOf rows
      = (sortBy (fun a b : String => decide (a ≤ b)) (distinctGenres rows)).map
          genreToColumnName
  ∧ (sortBy (fun a b : String => decide (a ≤ b)) (distinctGenres rows)).Perm
      (distinctGenres rows)
  ∧ (sortBy (fun a b : String => decide (a ≤ b)) (distinctGenres rows)).Pairwise (· ≤ ·)
  ∧ (preprocessGenres rows columns).1 = rows.map (addGenreFlags (genreColumnsOf rows))
  ∧ (∀ r ∈ rows, ∀ key ∈ genreColumnsOf rows,
      getField (addGenreFlags (genreColumnsOf rows) r) key
        = some (if (rowGenreTokens r).any (fun g => genreToColumnName g == key)
            then "true" else "false"))
  ∧ (∀ r ∈ rows, ∀ g ∈ distinctGenres rows,
      (∀ g' ∈ distinctGenres rows, genreToColumnName g' = genreToColumnName g → g' = g) →
      (getField (addGenreFlags (genreColumnsOf rows) r) (genreToColumnName g) = some "true"
        ↔ g ∈ rowGenreTokens r)) := by
  refine ⟨rfl, rfl, sortBy_perm _ _, ?_, rfl, ?_, ?_⟩
  · have hpw := sortBy_pairwise (fun a b : String => decide (a ≤ b))
      (fun a b => by rcases le_total a b with h | h <;> simp [h])
      (fun a b c hab hbc => by
        rw [decide_eq_true_iff] at *
        exact le_trans hab hbc)
      (distinctGenres rows)
    exact hpw.imp (fun h => by rwa [decide_eq_true_iff] at h)
  · intro r hr key hkey
    rw [getField_addGenreFlags, if_pos hkey]
  · intro r hr g hgd hinj
    have hkey : genreToColumnName g ∈ genreColumnsOf rows := by
      unfold genreColumnsOf
      exact List.mem_map_of_mem genreToColumnName
        (((sortBy_perm (fun a b : String => decide (a ≤ b)) (distinctGenres rows)).mem_iff).mpr
          hgd)
    rw [getField_addGenreFlags, if_pos hkey]
    constructor
    · intro htrue
      have hval := Option.some.inj htrue
      by_cases hany : (rowGenreTokens r).any
          (fun g' => genreToColumnName g' == genreToColumnName g)
      · rw [List.any_eq_true] at hany
        obtain ⟨g', hg', hbeq⟩ := hany
        have heq : genreToColumnName g' = genreToColumnName g := by simpa using hbeq
        have hgd' : g' ∈ distinctGenres rows := token_mem_distinctGenres rows r hr g' hg'
        have hgg : g' = g := hinj g' hgd' heq
        exact hgg ▸ hg'
      · rw [if_neg hany] at hval
        exact absurd hval (by decide)
    · intro hgr
      have hany : (rowGenreTokens r).any
          (fun g' => genreToColumnName g' == genreToColumnName g) = true := by
        rw [List.any_eq_true]
        exact ⟨g, hgr, by simp⟩
      rw [if_pos hany]

set_option maxRecDepth 100000 in
/-- C9 witness: for a single row with Genre "Drama, Crime" the isDrama
flag is 'true' exactly because the row lists Drama. -/
theorem preprocessGenres_props_witness :
    getField (addGenreFlags (genreColumnsOf [[("Genre", "Drama, Crime")]])
        [("Genre", "Drama, Crime")]) (genreToColumnName "Drama") = some "true"
      ↔ "Drama" ∈ rowGenreTokens [("Genre", "Drama, Crime")] :=
  (preprocessGenres_props [[("Genre", "Drama, Crime")]] ["Genre"]).2.2.2.2.2.2
    [("Genre", "Drama, Crime")] (by with_unfolding_all decide) "Drama"
    (by with_unfolding_all decide) (by with_unfolding_all decide)

theorem moviesByIdGet_roundtrip (rows : List Row) (r : Row)
    (hnd : (rows.map titleOf).Nodup) (hne : ∀ r' ∈ rows, titleOf r' ≠ "")
    (hr : r ∈ rows) :
    moviesByIdGet rows (titleOf r) = some r := by
  unfold moviesByIdGet
  have hfilter : rows.filter (fun r' => !(titleOf r' == "")) = rows := by
    apply List.filter_eq_self.mpr
    intro r' hr'
    simp [hne r' hr']
  rw [hfilter]
  have hsome : (rows.reverse.find? (fun r' => titleOf r' == titleOf r)).isSome := by
    rw [List.find?_isSome]
    exact ⟨r, List.mem_reverse.mpr hr, by simp⟩
  obtain ⟨r', hfind⟩ := Option.isSome_iff_exists.mp hsome
  rw [hfind]
  have hmem : r' ∈ rows := List.mem_reverse.mp (List.mem_of_find?_eq_some hfind)
  have hprop : titleOf r' = titleOf r := by
    have := List.find?_some hfind
    simpa using this
  have := List.inj_on_of_nodup_map hnd hmem hr hprop
  rw [this]

theorem filterMap_moviesByIdGet (rows : List Row) (l : List Row)
    (h : ∀ r ∈ l, moviesByIdGet rows (titleOf r) = some r) :
    (l.map titleOf).filterMap (moviesByIdGet rows) = l := by
  induction l with
  | nil => rfl
  | cons r t ih =>
    rw [List.map_cons, List.filterMap_cons, h r (List.mem_cons_self r t)]
    rw [ih (fun r' hr' => h r' (List.mem_cons_of_mem r hr'))]

/-- C4: given the chord data (modelled from the spec), `displayMovies`
returns all filtered records when nothing is selected; exactly the
records contributing to the selected edge when a connection is selected
(and surviving the weight threshold); and exactly the single selected
record when a movie is selected — provided record titles are nonempty
and pairwise distinct, as the title is the designated identifier. -/
theorem displayMovies_props (rows : List Row) (yearMin yearMax : ℚ) (minConn : ℕ)
    (hnd : (rows.map titleOf).Nodup) (hne : ∀ r ∈ rows, titleOf r ≠ "") :
    displayMovies rows (computeStarCooccurrenceMatrix rows yearMin yearMax minConn)
        none none
      = starChordFilteredRows rows yearMin yearMax
  ∧ (∀ a b,
      (computeStarCooccurrenceMatrix rows yearMin yearMax minConn).connectionMovies
          (pairKey a b) ≠ none →
      displayMovies rows (computeStarCooccurrenceMatrix rows yearMin yearMax minConn)
          none (some (a, b))
        = (starChordFilteredRows rows yearMin yearMax).filter
            (fun r => hasPairKey r (pairKey a b)))
  ∧ (∀ id m c, moviesByIdGet rows id = some m →
      displayMovies rows (computeStarCooccurrenceMatrix rows yearMin yearMax minConn)
        (some id) c = [m]) := by
  have hround : ∀ r ∈ starChordFilteredRows rows yearMin yearMax,
      moviesByIdGet rows (titleOf r) = some r := by
    intro r hr
    exact moviesByIdGet_roundtrip rows r hnd hne (List.mem_of_mem_filter hr)
  refine ⟨?_, ?_, ?_⟩
  · show ((starChordFilteredRows rows yearMin yearMax).map titleOf).filterMap
        (moviesByIdGet rows) = starChordFilteredRows rows yearMin yearMax
    exact filterMap_moviesByIdGet rows _ hround
  · intro a b hnn
    have hcm : (computeStarCooccurrenceMatrix rows yearMin yearMax minConn).connectionMovies
        (pairKey a b)
        = some (edgeContribIds (starChordFilteredRows rows yearMin yearMax) (pairKey a b)) := by
      unfold computeStarCooccurrenceMatrix at hnn ⊢
      by_cases hlen : minConn
          ≤ (edgeContribIds (starChordFilteredRows rows yearMin yearMax) (pairKey a b)).length
      · simp only [if_pos hlen]
      · exact absurd (by simp only [if_neg hlen] : _ = none) hnn
    have hdm : displayMovies rows (computeStarCooccurrenceMatrix rows yearMin yearMax minConn)
        none (some (a, b))
        = (((computeStarCooccurrenceMatrix rows yearMin yearMax minConn).connectionMovies
            (pairKey a b)).getD []).filterMap (moviesByIdGet rows) := rfl
    rw [hdm, hcm, Option.getD_some]
    unfold edgeContribIds
    apply filterMap_moviesByIdGet
    intro r hr
    exact hround r (List.mem_of_mem_filter hr)
  · intro id m c hm
    simp only [displayMovies, hm]

set_option maxRecDepth 100000 in
/-- C4 witness: on two concrete records with distinct nonempty titles the
idle view shows exactly the year-filtered records. -/
theorem displayMovies_props_witness :
    displayMovies c4Rows (computeStarCooccurrenceMatrix c4Rows 2000 2010 1) none none
      = starChordFilteredRows c4Rows 2000 2010 :=
  (displayMovies_props c4Rows 2000 2010 1 (by with_unfolding_all decide)
    (by with_unfolding_all decide)).1
